import Mathlib

/-!
Verification of the region-partitioning, region-processing and
allele-frequency components of `deepvariant.make_examples_core`.

The repository ships the unit-test file
`src/deepvariant/make_examples_core_test.py`; the module under test,
`make_examples_core.py`, is not part of the source tree, so each operation
below is modelled from the natural-language specification (`spec.md`),
with the shipped tests pinning the concrete observable behaviour.

Coordinates are 0-based half-open throughout, matching the proto `Range`
semantics used by the tests (`ranges.parse_literal 'x:100-200'` yields
`start = 99`, `end = 200`).
-/

namespace DV

/-- A reference contig: name, length in basepairs, and position in the
source FASTA file (`pos_in_fasta` is the source-order index used as the
cross-contig sort key).  Mirrors `reference_pb2.ContigInfo` as built by
`_make_contigs` in the test file. -/
structure ContigInfo where
  name : String
  n_bases : Nat
  pos_in_fasta : Nat
deriving DecidableEq

/-- A genomic interval on one contig, 0-based half-open.  Mirrors the
nucleus `Range` proto (`reference_name`, `start`, `end`); the `end` field
is called `stop` because `end` is a Lean keyword. -/
structure Range where
  reference_name : String
  start : Nat
  stop : Nat
deriving DecidableEq

/-- Plain interval `(start, end)` inside a single contig. -/
abbrev Ival := Nat × Nat

/-- Ordering of intervals by start position, used to sort a contig's
intervals before merging. -/
def ivalLE (a b : Ival) : Prop := a.1 ≤ b.1

instance : DecidableRel ivalLE :=
  fun a b => inferInstanceAs (Decidable (a.1 ≤ b.1))

instance : IsTotal Ival ivalLE :=
  ⟨fun a b => Nat.le_total a.1 b.1⟩

instance : IsTrans Ival ivalLE :=
  ⟨fun _ _ _ => Nat.le_trans⟩

/-- Prepend interval `x` onto an already-merged list, absorbing every
following interval it reaches; two intervals merge when one's end `≥` the
other's start (touching counts as overlapping), per spec §4.1. -/
def insertMerge (x : Ival) : List Ival → List Ival
  | [] => [x]
  | y :: out =>
    if y.1 ≤ x.2 then insertMerge (x.1, max x.2 y.2) out
    else x :: y :: out

/-- Merge a start-sorted interval list into a sorted, non-overlapping
list (spec §4.1). -/
def mergeIvals (l : List Ival) : List Ival :=
  l.foldr insertMerge []

/-- Normalize an arbitrary interval list into the canonical `IntervalSet`
form of spec §3: sorted by start, merged, non-overlapping. -/
def normalizeIvals (l : List Ival) : List Ival :=
  mergeIvals (List.insertionSort ivalLE l)

/-- Intersection of two sorted, merged interval lists (spec §4.1): the
non-empty pairwise overlaps, emitted in order of the first operand. -/
def interIvals (a b : List Ival) : List Ival :=
  a.flatMap fun x =>
    b.filterMap fun y =>
      let lo := max x.1 y.1
      let hi := min x.2 y.2
      if lo < hi then some (lo, hi) else none

/-- Walk of `partitionIval` below: emit pieces of width at most `p`
starting at `s` until `e` is reached; `fuel` only bounds the recursion
and is chosen large enough (`e - s`) that it never runs out first. -/
def partGo (p e : Nat) : Nat → Nat → List Ival
  | 0, _ => []
  | fuel + 1, s =>
    if 0 < p ∧ s < e then (s, min (s + p) e) :: partGo p e fuel (min (s + p) e)
    else []

/-- Split one interval into consecutive pieces of at most `p` positions;
the final piece may be shorter (spec §4.2 step 3). -/
def partitionIval (p s e : Nat) : List Ival :=
  partGo p e (e - s) s

/-- The calling intervals belonging to contig `c`: the whole-genome
extent `[0, n_bases)` when no calling regions were supplied, otherwise
the normalized intervals of the supplied regions lying on `c` (spec §4.2
steps 1-2). -/
def callingIvalsFor (calling_regions : Option (List Range)) (c : ContigInfo) :
    List Ival :=
  match calling_regions with
  | none => [(0, c.n_bases)]
  | some rs =>
    normalizeIvals
      ((rs.filter fun r => r.reference_name == c.name).map fun r =>
        (r.start, r.stop))

/-- All partition pieces of one contig: its calling intervals clipped to
the contig extent, then split into pieces of at most `psize` positions. -/
def contigPieces (psize : Nat) (calling_regions : Option (List Range))
    (c : ContigInfo) : List Ival :=
  (interIvals [(0, c.n_bases)] (callingIvalsFor calling_regions c)).flatMap
    fun iv => partitionIval psize iv.1 iv.2

/-- Ordering of contigs by their source-file position, the cross-contig
sort key of spec §4.2 step 2. -/
def contigLE (a b : ContigInfo) : Prop := a.pos_in_fasta ≤ b.pos_in_fasta

instance : DecidableRel contigLE :=
  fun a b => inferInstanceAs (Decidable (a.pos_in_fasta ≤ b.pos_in_fasta))

instance : IsTotal ContigInfo contigLE :=
  ⟨fun a b => Nat.le_total a.pos_in_fasta b.pos_in_fasta⟩

instance : IsTrans ContigInfo contigLE :=
  ⟨fun _ _ _ => Nat.le_trans⟩

/-- The full unsharded partition sequence: contigs sorted ascending by
`pos_in_fasta` (source-file order, spec §4.2 step 2), each contig's
pieces concatenated in order (step 4). -/
def computeRegions (contigs : List ContigInfo) (psize : Nat)
    (calling_regions : Option (List Range)) : List Range :=
  (List.insertionSort contigLE contigs).flatMap fun c =>
    (contigPieces psize calling_regions c).map fun iv =>
      Range.mk c.name iv.1 iv.2

/-- Keep the pieces whose 0-based global index `i` satisfies
`i mod num_shards = task_id` (spec §4.2 step 5). -/
def selectShard (t n : Int) (l : List Range) : List Range :=
  (l.enum.filter fun p => (p.1 : Int) % n == t).map Prod.snd

/-- Validation of the `(task_id, num_shards)` pair (spec §4.2 step 5 and
failure modes): both absent means single-worker mode; supplying only one
is an error; `num_shards = 0` also means single-worker mode (the test
file calls the unsharded case as `get_regions(0, 0)`); otherwise both
must be non-negative with `task_id < num_shards`. -/
def shardSelector : Option Int → Option Int → Except String (Option (Int × Int))
  | none, none => Except.ok none
  | some _, none =>
    Except.error "Both task_id and num_shards must be present if either is"
  | none, some _ =>
    Except.error "Both task_id and num_shards must be present if either is"
  | some t, some n =>
    if n = 0 then Except.ok none
    else if n < 0 then Except.error "num_shards must be non-negative"
    else if t < 0 ∨ n ≤ t then
      Except.error "task_id must satisfy 0 <= task_id < num_shards"
    else Except.ok (some (t, n))

/-- Modelled from the spec: `make_examples_core.regions_to_process`
(spec §4.2), absent from `src/`.  Validates the shard arguments and
`partition_size`, derives the ordered global piece sequence, and keeps
this worker's pieces when sharding is requested. -/
def regions_to_process (contigs : List ContigInfo) (partition_size : Int)
    (calling_regions : Option (List Range)) (task_id : Option Int)
    (num_shards : Option Int) : Except String (List Range) :=
  match shardSelector task_id num_shards with
  | Except.error e => Except.error e
  | Except.ok sel =>
    if partition_size ≤ 0 then Except.error "partition_size must be positive"
    else
      let base := computeRegions contigs partition_size.toNat calling_regions
      match sel with
      | none => Except.ok base
      | some (t, n) => Except.ok (selectShard t n base)

/-- True exactly when the call returned a result rather than raising. -/
def isOkE (e : Except String (List Range)) : Bool :=
  match e with
  | Except.ok _ => true
  | Except.error _ => false

/-- Contigs used by the sharding tests: `[('z', 100), ('a', 100), ('n', 100)]`. -/
def zanContigs : List ContigInfo :=
  [⟨"z", 100, 0⟩, ⟨"a", 100, 1⟩, ⟨"n", 100, 2⟩]

/-- C3: `regions_to_process` rejects every invalid sharding argument pair
with an error — supplying only one of `task_id` / `num_shards`, a negative
`num_shards`, or (when `num_shards` is non-zero) a negative `task_id` or
`task_id ≥ num_shards` — and succeeds for every valid pair
`0 ≤ task_id < num_shards` when `partition_size > 0`; invalid values are
rejected, never clamped. -/
theorem regions_to_process_shard_validation :
    (∀ contigs p cr t,
      isOkE (regions_to_process contigs p cr (some t) none) = false) ∧
    (∀ contigs p cr n,
      isOkE (regions_to_process contigs p cr none (some n)) = false) ∧
    (∀ contigs p cr t n, n ≠ 0 → (t < 0 ∨ n < 0 ∨ n ≤ t) →
      isOkE (regions_to_process contigs p cr (some t) (some n)) = false) ∧
    (∀ contigs p cr t n, 0 < p → 0 ≤ t → t < n →
      isOkE (regions_to_process contigs p cr (some t) (some n)) = true) := by
  refine ⟨fun contigs p cr t => rfl, fun contigs p cr n => rfl, ?_, ?_⟩
  · intro contigs p cr t n hn hbad
    simp only [regions_to_process, shardSelector]
    rw [if_neg hn]
    rcases hbad with h | h | h
    · have : ¬ n < 0 ∨ n < 0 := em _ |>.symm
      by_cases hlt : n < 0
      · rw [if_pos hlt]; rfl
      · rw [if_neg hlt, if_pos (Or.inl h)]; rfl
    · rw [if_pos h]; rfl
    · by_cases hlt : n < 0
      · rw [if_pos hlt]; rfl
      · rw [if_neg hlt, if_pos (Or.inr h)]; rfl
  · intro contigs p cr t n hp ht htn
    have hn0 : ¬ n = 0 := by omega
    have hnneg : ¬ n < 0 := by omega
    have hok : ¬ (t < 0 ∨ n ≤ t) := by omega
    have hpp : ¬ p ≤ 0 := by omega
    simp only [regions_to_process, shardSelector, if_neg hn0, if_neg hnneg,
      if_neg hok, if_neg hpp, isOkE]

/-- Witness for C3, at the inputs of
`test_regions_to_process_fails_with_bad_shard_args`: with the `z/a/n`
contigs and `partition_size = 10`, the pairs `(None,0)`, `(None,2)`,
`(2,None)`, `(0,None)`, `(-1,2)`, `(0,-2)`, `(2,2)`, `(3,2)` all raise,
while `(0,2)` and `(1,2)` succeed. -/
theorem regions_to_process_shard_validation_witness :
    isOkE (regions_to_process zanContigs 10 none none (some 0)) = false ∧
    isOkE (regions_to_process zanContigs 10 none none (some 2)) = false ∧
    isOkE (regions_to_process zanContigs 10 none (some 2) none) = false ∧
    isOkE (regions_to_process zanContigs 10 none (some 0) none) = false ∧
    isOkE (regions_to_process zanContigs 10 none (some (-1)) (some 2)) = false ∧
    isOkE (regions_to_process zanContigs 10 none (some 0) (some (-2))) = false ∧
    isOkE (regions_to_process zanContigs 10 none (some 2) (some 2)) = false ∧
    isOkE (regions_to_process zanContigs 10 none (some 3) (some 2)) = false ∧
    isOkE (regions_to_process zanContigs 10 none (some 0) (some 2)) = true ∧
    isOkE (regions_to_process zanContigs 10 none (some 1) (some 2)) = true :=
  ⟨regions_to_process_shard_validation.2.1 zanContigs 10 none 0,
   regions_to_process_shard_validation.2.1 zanContigs 10 none 2,
   regions_to_process_shard_validation.1 zanContigs 10 none 2,
   regions_to_process_shard_validation.1 zanContigs 10 none 0,
   regions_to_process_shard_validation.2.2.1 zanContigs 10 none (-1) 2
     (by decide) (by decide),
   regions_to_process_shard_validation.2.2.1 zanContigs 10 none 0 (-2)
     (by decide) (by decide),
   regions_to_process_shard_validation.2.2.1 zanContigs 10 none 2 2
     (by decide) (by decide),
   regions_to_process_shard_validation.2.2.1 zanContigs 10 none 3 2
     (by decide) (by decide),
   regions_to_process_shard_validation.2.2.2 zanContigs 10 none 0 2
     (by decide) (by decide) (by decide),
   regions_to_process_shard_validation.2.2.2 zanContigs 10 none 1 2
     (by decide) (by decide) (by decide)⟩

/-- The result list of a call that is known to succeed (`[]` otherwise). -/
def getOk (e : Except String (List Range)) : List Range :=
  match e with
  | Except.ok l => l
  | Except.error _ => []

theorem natMod_beq (a n t : Nat) :
    (((a : Int) % (n : Int)) == ((t : Int))) = ((a % n) == t) := by
  rw [show ((a : Int) % (n : Int)) = ((a % n : Nat) : Int) by push_cast; ring]
  rw [Bool.eq_iff_iff]
  simp only [beq_iff_eq, Nat.cast_inj]

theorem flatMap_one {α} (x : α) (m N : Nat) :
    ((List.range N).flatMap fun t => if m == t then [x] else []) =
      if m < N then [x] else [] := by
  induction N with
  | zero => simp
  | succ N ih =>
    rw [List.range_succ, List.flatMap_append, ih]
    by_cases h : m < N
    · have h2 : m ≠ N := by omega
      simp [h, h2, Nat.lt_succ_of_lt h]
    · by_cases h2 : m = N
      · simp [h, h2]
      · have h3 : ¬ m < N + 1 := by omega
        simp [h, h2, h3]

/-- Collecting, over all residues `t < n`, the elements whose position
(counted from `k`) is congruent to `t` modulo `n` yields a permutation of
the original list: each element lands in exactly one residue class. -/
theorem selectFrom_perm {α} (n : Nat) (hn : 0 < n) :
    ∀ (l : List α) (k : Nat),
      List.Perm
        ((List.range n).flatMap fun t =>
          ((List.enumFrom k l).filter fun p => p.1 % n == t).map Prod.snd) l := by
  intro l
  induction l with
  | nil => intro k; simp
  | cons x xs ih =>
    intro k
    have hstep : ∀ t : Nat,
        ((List.enumFrom k (x :: xs)).filter fun p => p.1 % n == t).map Prod.snd
          = (if k % n == t then [x] else []) ++
            ((List.enumFrom (k + 1) xs).filter fun p => p.1 % n == t).map Prod.snd := by
      intro t
      simp only [List.enumFrom, List.filter_cons]
      split <;> simp
    simp only [hstep]
    have h1 := List.flatMap_append_perm (List.range n)
      (fun t => if k % n == t then [x] else [])
      (fun t => ((List.enumFrom (k + 1) xs).filter fun p => p.1 % n == t).map Prod.snd)
    refine h1.symm.trans ?_
    rw [flatMap_one x (k % n) n, if_pos (Nat.mod_lt k hn)]
    exact (ih (k + 1)).cons x

theorem selectShard_perm (n : Nat) (hn : 0 < n) (l : List Range) :
    List.Perm ((List.range n).flatMap fun t => selectShard (t : Int) (n : Int) l)
      l := by
  have hfun : ∀ t : Nat, selectShard (t : Int) (n : Int) l =
      ((List.enumFrom 0 l).filter fun p => p.1 % n == t).map Prod.snd := by
    intro t
    show ((List.enumFrom 0 l).filter fun p =>
        (p.1 : Int) % (n : Int) == (t : Int)).map Prod.snd = _
    simp only [natMod_beq]
  simp only [hfun]
  exact selectFrom_perm n hn l 0

/-- C1: for every contig list, calling-region set, `partition_size > 0`
and `num_shards > 0`, each sharded call with `0 ≤ task_id < num_shards`
succeeds, the unsharded call succeeds, and the concatenation of all
shards' outputs is a permutation (multiset equality) of the unsharded
output: every partition piece appears in exactly one shard, none lost,
none duplicated. -/
theorem regions_to_process_sharding (contigs : List ContigInfo) (psize : Int)
    (cr : Option (List Range)) (n : Nat) (hp : 0 < psize) (hn : 0 < n) :
    regions_to_process contigs psize cr none none =
      Except.ok (computeRegions contigs psize.toNat cr) ∧
    regions_to_process contigs psize cr (some 0) (some 0) =
      Except.ok (computeRegions contigs psize.toNat cr) ∧
    (∀ t : Nat, t < n →
      regions_to_process contigs psize cr (some (t : Int)) (some (n : Int)) =
        Except.ok (selectShard (t : Int) (n : Int)
          (computeRegions contigs psize.toNat cr))) ∧
    List.Perm
      ((List.range n).flatMap fun t =>
        getOk (regions_to_process contigs psize cr (some (t : Int))
          (some (n : Int))))
      (computeRegions contigs psize.toNat cr) := by
  have hpp : ¬ psize ≤ 0 := by omega
  have hshard : ∀ t : Nat, t < n →
      regions_to_process contigs psize cr (some (t : Int)) (some (n : Int)) =
        Except.ok (selectShard (t : Int) (n : Int)
          (computeRegions contigs psize.toNat cr)) := by
    intro t ht
    have hn0 : ¬ ((n : Int) = 0) := by omega
    have hnneg : ¬ ((n : Int) < 0) := by omega
    have hok : ¬ ((t : Int) < 0 ∨ (n : Int) ≤ (t : Int)) := by
      push_neg
      constructor <;> [omega; exact_mod_cast ht]
    simp only [regions_to_process, shardSelector, if_neg hn0, if_neg hnneg,
      if_neg hok, if_neg hpp]
  refine ⟨by simp [regions_to_process, shardSelector, hpp],
    by simp [regions_to_process, shardSelector, hpp], hshard, ?_⟩
  have hrw : ∀ t ∈ List.range n,
      getOk (regions_to_process contigs psize cr (some (t : Int))
        (some (n : Int))) =
      selectShard (t : Int) (n : Int) (computeRegions contigs psize.toNat cr) := by
    intro t ht
    rw [hshard t (List.mem_range.mp ht)]
    rfl
  rw [List.flatMap_congr hrw]
  exact selectShard_perm n hn (computeRegions contigs psize.toNat cr)

/-- Witness for C1, at the inputs of `test_regions_to_process_sharding`:
the `z/a/n` contigs, `partition_size = 5`, `num_shards = 3`. -/
theorem regions_to_process_sharding_witness :
    (0 : Int) < 5 ∧ 0 < 3 ∧
    List.Perm
      ((List.range 3).flatMap fun t =>
        getOk (regions_to_process zanContigs 5 none (some (t : Int))
          (some ((3 : Nat) : Int))))
      (computeRegions zanContigs (5 : Int).toNat none) :=
  ⟨by decide, by decide,
    (regions_to_process_sharding zanContigs 5 none 3 (by decide)
      (by decide)).2.2.2⟩

/-- Sorted-and-disjoint invariant of an `IntervalSet` per contig (spec
§3): consecutive intervals neither touch nor overlap. -/
def Disj (l : List Ival) : Prop := l.Pairwise fun u v => u.2 < v.1

theorem insertMerge_props : ∀ (out : List Ival) (x : Ival),
    Disj out → out.Pairwise ivalLE → (∀ w ∈ out, x.1 ≤ w.1) →
    Disj (insertMerge x out) ∧ (insertMerge x out).Pairwise ivalLE ∧
    ∀ z ∈ insertMerge x out, z.1 = x.1 ∨ ∃ w ∈ out, z.1 = w.1 := by
  intro out
  induction out with
  | nil =>
    intro x _ _ _
    refine ⟨by simp [Disj, insertMerge], by simp [insertMerge], ?_⟩
    simp [insertMerge]
  | cons y out ih =>
    intro x hd hs hx
    rcases List.pairwise_cons.mp hd with ⟨hdy, hd2⟩
    rcases List.pairwise_cons.mp hs with ⟨hsy, hs2⟩
    by_cases h : y.1 ≤ x.2
    · rw [show insertMerge x (y :: out) = insertMerge (x.1, max x.2 y.2) out
        from by rw [insertMerge, if_pos h]]
      have hx2 : ∀ w ∈ out, (x.1, max x.2 y.2).1 ≤ w.1 := by
        intro w hw
        exact Nat.le_trans (hx y (by simp)) (hsy w hw)
      obtain ⟨ih1, ih2, ih3⟩ := ih (x.1, max x.2 y.2) hd2 hs2 hx2
      refine ⟨ih1, ih2, ?_⟩
      intro z hz
      rcases ih3 z hz with hz1 | ⟨w, hw, hzw⟩
      · exact Or.inl hz1
      · exact Or.inr ⟨w, by simp [hw], hzw⟩
    · rw [show insertMerge x (y :: out) = x :: y :: out
        from by rw [insertMerge, if_neg h]]
      have hxy : x.2 < y.1 := Nat.lt_of_not_le h
      refine ⟨?_, ?_, ?_⟩
      · refine List.pairwise_cons.mpr ⟨?_, hd⟩
        intro w hw
        rcases List.mem_cons.mp hw with rfl | hw2
        · exact hxy
        · exact Nat.lt_of_lt_of_le hxy (hsy w hw2)
      · refine List.pairwise_cons.mpr ⟨?_, hs⟩
        intro w hw
        exact hx w hw
      · intro z hz
        rcases List.mem_cons.mp hz with rfl | hz2
        · exact Or.inl rfl
        · exact Or.inr ⟨z, hz2, rfl⟩

/-- Merging a start-sorted interval list yields a sorted list of
pairwise-disjoint intervals whose start positions all come from the
input. -/
theorem mergeIvals_strong : ∀ l : List Ival, l.Pairwise ivalLE →
    Disj (mergeIvals l) ∧ (mergeIvals l).Pairwise ivalLE ∧
    ∀ z ∈ mergeIvals l, ∃ w ∈ l, z.1 = w.1 := by
  intro l
  induction l with
  | nil =>
    intro _
    exact ⟨List.Pairwise.nil, List.Pairwise.nil, by simp [mergeIvals]⟩
  | cons x rest ih =>
    intro hs
    rcases List.pairwise_cons.mp hs with ⟨hsx, hs2⟩
    obtain ⟨ih1, ih2, ih3⟩ := ih hs2
    have hstarts : ∀ w ∈ mergeIvals rest, x.1 ≤ w.1 := by
      intro w hw
      obtain ⟨v, hv, hwv⟩ := ih3 w hw
      rw [hwv]
      exact hsx v hv
    have heq : mergeIvals (x :: rest) = insertMerge x (mergeIvals rest) := by
      simp [mergeIvals]
    obtain ⟨h1, h2, h3⟩ := insertMerge_props (mergeIvals rest) x ih1 ih2 hstarts
    rw [heq]
    refine ⟨h1, h2, ?_⟩
    intro z hz
    rcases h3 z hz with hz1 | ⟨w, hw, hzw⟩
    · exact ⟨x, by simp, hz1⟩
    · obtain ⟨v, hv, hwv⟩ := ih3 w hw
      exact ⟨v, by simp [hv], hzw.trans hwv⟩

theorem normalizeIvals_disj (l : List Ival) : Disj (normalizeIvals l) :=
  (mergeIvals_strong _ (List.sorted_insertionSort ivalLE l)).1

theorem clip_eq (n : Nat) (ys : List Ival) :
    interIvals [(0, n)] ys =
      ys.filterMap fun y =>
        if y.1 < min n y.2 then some (y.1, min n y.2) else none := by
  simp only [interIvals, List.flatMap_cons, List.flatMap_nil, List.append_nil]
  congr 1
  funext y
  simp [Nat.zero_max]

/-- Clipping a sorted, disjoint interval list to the contig extent
`[0, n)` keeps it sorted and disjoint, and every surviving piece is a
non-empty sub-interval of an input interval with the same start. -/
theorem clip_props (n : Nat) : ∀ ys : List Ival, Disj ys →
    Disj (interIvals [(0, n)] ys) ∧
    ∀ z ∈ interIvals [(0, n)] ys,
      z.1 < z.2 ∧ ∃ y ∈ ys, z.1 = y.1 ∧ z.2 ≤ y.2 := by
  intro ys
  induction ys with
  | nil => intro _; rw [clip_eq]; exact ⟨List.Pairwise.nil, by simp⟩
  | cons y ys ih =>
    intro hd
    rcases List.pairwise_cons.mp hd with ⟨hy, hd2⟩
    obtain ⟨ih1, ih2⟩ := ih hd2
    rw [clip_eq] at ih1 ih2 ⊢
    rw [List.filterMap_cons]
    by_cases h : y.1 < min n y.2
    · rw [if_pos h]
      constructor
      · refine List.pairwise_cons.mpr ⟨?_, ih1⟩
        intro z hz
        obtain ⟨-, w, hw, hzw, -⟩ := ih2 z hz
        have h1 : y.2 < w.1 := hy w hw
        have h2 : min n y.2 ≤ y.2 := Nat.min_le_right _ _
        omega
      · intro z hz
        rcases List.mem_cons.mp hz with rfl | hz2
        · exact ⟨h, ⟨y, by simp, rfl, Nat.min_le_right _ _⟩⟩
        · obtain ⟨h1, w, hw, h3, h4⟩ := ih2 z hz2
          exact ⟨h1, ⟨w, by simp [hw], h3, h4⟩⟩
    · rw [if_neg h]
      refine ⟨ih1, ?_⟩
      intro z hz
      obtain ⟨h1, w, hw, h3, h4⟩ := ih2 z hz
      exact ⟨h1, ⟨w, by simp [hw], h3, h4⟩⟩

theorem partGo_mem (p e : Nat) : ∀ (fuel s : Nat), ∀ z ∈ partGo p e fuel s,
    s ≤ z.1 ∧ z.1 < e ∧ z.1 < z.2 ∧ z.2 ≤ e := by
  intro fuel
  induction fuel with
  | zero => intro s z hz; simp [partGo] at hz
  | succ fuel ih =>
    intro s z hz
    rw [partGo] at hz
    by_cases h : 0 < p ∧ s < e
    · rw [if_pos h] at hz
      rcases List.mem_cons.mp hz with rfl | hz2
      · exact ⟨Nat.le_refl _, h.2, by omega, Nat.min_le_right _ _⟩
      · obtain ⟨h1, h2, h3, h4⟩ := ih (min (s + p) e) z hz2
        exact ⟨by omega, h2, h3, h4⟩
    · rw [if_neg h] at hz
      simp at hz

theorem partGo_pairwise (p e : Nat) : ∀ (fuel s : Nat),
    (partGo p e fuel s).Pairwise fun u v => u.1 < v.1 := by
  intro fuel
  induction fuel with
  | zero => intro s; simp [partGo]
  | succ fuel ih =>
    intro s
    rw [partGo]
    by_cases h : 0 < p ∧ s < e
    · rw [if_pos h]
      refine List.pairwise_cons.mpr ⟨?_, ih (min (s + p) e)⟩
      intro z hz
      have hm := (partGo_mem p e fuel (min (s + p) e) z hz).1
      omega
    · rw [if_neg h]
      exact List.Pairwise.nil

theorem partitionIval_mem (p s e : Nat) : ∀ z ∈ partitionIval p s e,
    s ≤ z.1 ∧ z.1 < e ∧ z.1 < z.2 ∧ z.2 ≤ e :=
  partGo_mem p e (e - s) s

theorem partitionIval_pairwise (p s e : Nat) :
    (partitionIval p s e).Pairwise fun u v => u.1 < v.1 :=
  partGo_pairwise p e (e - s) s

theorem pairwise_flatMap {α β : Type _} {l : List α} {f : α → List β}
    {S : α → α → Prop} {R : β → β → Prop}
    (hS : l.Pairwise S) (hf : ∀ a ∈ l, (f a).Pairwise R)
    (hcross : ∀ a ∈ l, ∀ b ∈ l, S a b → ∀ x ∈ f a, ∀ y ∈ f b, R x y) :
    (l.flatMap f).Pairwise R := by
  induction l with
  | nil => simp
  | cons a l ih =>
    rw [List.flatMap_cons]
    rcases List.pairwise_cons.mp hS with ⟨ha, hS2⟩
    refine List.pairwise_append.mpr ⟨hf a (by simp), ?_, ?_⟩
    · exact ih hS2 (fun b hb => hf b (by simp [hb]))
        (fun b hb c hc hbc => hcross b (by simp [hb]) c (by simp [hc]) hbc)
    · intro x hx y hy
      obtain ⟨b, hb, hyb⟩ := List.mem_flatMap.mp hy
      exact hcross a (by simp) b (by simp [hb]) (ha b hb) x hx y hyb

/-- The pieces of one contig have strictly increasing start positions. -/
theorem contigPieces_pairwise (psize : Nat) (cr : Option (List Range))
    (c : ContigInfo) :
    (contigPieces psize cr c).Pairwise fun u v => u.1 < v.1 := by
  have hcall : Disj (callingIvalsFor cr c) := by
    match cr with
    | none => simp [callingIvalsFor, Disj]
    | some rs => exact normalizeIvals_disj _
  have hclip := (clip_props c.n_bases _ hcall).1
  have hmem := (clip_props c.n_bases _ hcall).2
  refine pairwise_flatMap hclip
    (fun iv _ => partitionIval_pairwise psize iv.1 iv.2) ?_
  intro a _ b _ hab x hx y hy
  have hxm := partitionIval_mem psize a.1 a.2 x hx
  have hym := partitionIval_mem psize b.1 b.2 y hy
  omega

/-- The source-order index of the contig named `nm` (its `pos_in_fasta`),
`0` when no such contig exists. -/
def contigIndexOf (contigs : List ContigInfo) (nm : String) : Nat :=
  ((contigs.find? fun c => c.name == nm).map ContigInfo.pos_in_fasta).getD 0

/-- The emission order of spec §4.2: first by the owning contig's
source-order index (ascending), then by start position (ascending)
within a contig. -/
def regionOrder (contigs : List ContigInfo) (r1 r2 : Range) : Prop :=
  contigIndexOf contigs r1.reference_name <
      contigIndexOf contigs r2.reference_name ∨
    (r1.reference_name = r2.reference_name ∧ r1.start < r2.start)

theorem contigIndexOf_eq (contigs : List ContigInfo)
    (hnames : (contigs.map ContigInfo.name).Nodup) (c : ContigInfo)
    (hc : c ∈ contigs) : contigIndexOf contigs c.name = c.pos_in_fasta := by
  induction contigs with
  | nil => simp at hc
  | cons d rest ih =>
    rw [List.map_cons, List.nodup_cons] at hnames
    by_cases hdc : d.name == c.name
    · have hdc2 : d.name = c.name := by simpa using hdc
      have hcd : c = d := by
        rcases List.mem_cons.mp hc with rfl | hc2
        · rfl
        · exact absurd (hdc2 ▸ List.mem_map_of_mem ContigInfo.name hc2)
            hnames.1
      subst hcd
      simp [contigIndexOf, List.find?_cons, hdc]
    · have hcd : c ∈ rest := by
        rcases List.mem_cons.mp hc with rfl | hc2
        · simp at hdc
        · exact hc2
      have := ih hnames.2 hcd
      simpa [contigIndexOf, List.find?_cons, hdc] using this

/-- The unsharded partition sequence is pairwise ordered by contig
source-order index, then by start position, provided the contig list is
well-formed (distinct names and distinct source positions, the data-model
invariants of spec §3). -/
theorem computeRegions_pairwise (contigs : List ContigInfo) (psize : Nat)
    (cr : Option (List Range))
    (hnames : (contigs.map ContigInfo.name).Nodup)
    (hpos : (contigs.map ContigInfo.pos_in_fasta).Nodup) :
    (computeRegions contigs psize cr).Pairwise (regionOrder contigs) := by
  have hperm : List.Perm (List.insertionSort contigLE contigs) contigs :=
    List.perm_insertionSort contigLE contigs
  have hsorted : (List.insertionSort contigLE contigs).Pairwise contigLE :=
    List.sorted_insertionSort contigLE contigs
  have hposnodup :
      ((List.insertionSort contigLE contigs).map
        ContigInfo.pos_in_fasta).Nodup :=
    ((hperm.map ContigInfo.pos_in_fasta).nodup_iff).mpr hpos
  have hne : (List.insertionSort contigLE contigs).Pairwise
      fun c d => c.pos_in_fasta ≠ d.pos_in_fasta :=
    List.pairwise_map.mp hposnodup
  have hlt : (List.insertionSort contigLE contigs).Pairwise
      fun c d => c.pos_in_fasta < d.pos_in_fasta := by
    have hand := hsorted.and hne
    exact hand.imp fun h => Nat.lt_of_le_of_ne h.1 h.2
  refine pairwise_flatMap hlt ?_ ?_
  · intro c _
    rw [List.pairwise_map]
    exact (contigPieces_pairwise psize cr c).imp fun h => Or.inr ⟨rfl, h⟩
  · intro a ha b hb hab x hx y hy
    obtain ⟨u, -, rfl⟩ := List.mem_map.mp hx
    obtain ⟨v, -, rfl⟩ := List.mem_map.mp hy
    left
    show contigIndexOf contigs a.name < contigIndexOf contigs b.name
    rw [contigIndexOf_eq contigs hnames a (hperm.subset ha),
      contigIndexOf_eq contigs hnames b (hperm.subset hb)]
    exact hab

/-- C2: whenever `regions_to_process` succeeds (unsharded call), its
output is sorted by the owning contig's source-order index (ascending,
not lexicographic name order) and then by start position within each
contig, for every well-formed contig list (distinct names and distinct
`pos_in_fasta`) and arbitrary, possibly out-of-order calling regions. -/
theorem regions_to_process_sorted (contigs : List ContigInfo) (psize : Int)
    (cr : Option (List Range))
    (hnames : (contigs.map ContigInfo.name).Nodup)
    (hpos : (contigs.map ContigInfo.pos_in_fasta).Nodup)
    (out : List Range)
    (hout : regions_to_process contigs psize cr none none = Except.ok out) :
    out.Pairwise (regionOrder contigs) := by
  by_cases hpp : psize ≤ 0
  · rw [regions_to_process] at hout
    simp only [shardSelector, if_pos hpp] at hout
    exact Except.noConfusion hout
  · rw [regions_to_process] at hout
    simp only [shardSelector, if_neg hpp] at hout
    cases hout
    exact computeRegions_pairwise contigs psize.toNat cr hnames hpos

/-- Calling regions of `test_regions_to_process_sorted_contigs`, supplied
out of order: `['a:10', 'n:1', 'z:20', 'z:5']` in 0-based half-open
coordinates. -/
def zanCalling : List Range :=
  [⟨"a", 9, 10⟩, ⟨"n", 0, 1⟩, ⟨"z", 19, 20⟩, ⟨"z", 4, 5⟩]

/-- Expected output order of that test: `z:5, z:20, a:10, n:1`. -/
def zanSortedOut : List Range :=
  [⟨"z", 4, 5⟩, ⟨"z", 19, 20⟩, ⟨"a", 9, 10⟩, ⟨"n", 0, 1⟩]

/-- Witness for C2, at the inputs of
`test_regions_to_process_sorted_contigs`: contigs `['z','a','n']` with
out-of-order intervals `['a:10','n:1','z:20','z:5']` yield exactly the
order `z:5, z:20, a:10, n:1`, which is pairwise ordered. -/
theorem regions_to_process_sorted_witness :
    (zanContigs.map ContigInfo.name).Nodup ∧
    (zanContigs.map ContigInfo.pos_in_fasta).Nodup ∧
    regions_to_process zanContigs 100 (some zanCalling) none none =
      Except.ok zanSortedOut ∧
    zanSortedOut.Pairwise (regionOrder zanContigs) :=
  ⟨by decide, by decide, rfl,
    regions_to_process_sorted zanContigs 100 (some zanCalling) (by decide)
      (by decide) zanSortedOut rfl⟩

/-- Processing mode of `DeepVariantOptions.Mode`. -/
inductive Mode
  | TRAINING
  | CALLING
deriving DecidableEq

/-- The collaborators a `RegionProcessor` calls through narrow contracts
(spec §6), injected as plain functions so that concrete behaviours play
the role of the test doubles of `RegionProcessorTest`.  `region_reads`
covers read fetching including optional realignment (spec §4.5 step 2);
`stage_time` supplies the elapsed time recorded for a pipeline stage. -/
structure Collaborators (R C G E L : Type) where
  region_reads : Range → List R
  candidates_in_region : Range → List C × List G
  create_pileup_examples : C → List E
  label_candidates : List C → Range → List (C × L)
  add_label_to_ex : E → L → E
  stage_time : String → Nat

/-- Mutable state of a `RegionProcessor` relevant to its lifecycle (spec
§3): constructed with `initialized = false`. -/
structure ProcState where
  initialized : Bool

/-- Observable outcome of one `process(region)` call: the returned
quadruple plus, mirroring the mock `call_args_list` assertions of the
tests, the sequence of arguments each collaborator was called with and
the number of `initialize()` calls performed. -/
structure ProcessResult (R C G E L : Type) where
  candidates : List C
  examples : List E
  gvcfs : List G
  runtimes : List (String × Nat)
  init_calls : Nat
  region_reads_calls : List Range
  replace_reads_calls : List (List R)
  candidates_in_region_calls : List Range
  create_pileup_examples_calls : List C
  label_candidates_calls : List (List C × Range)
  add_label_calls : List (E × L)

/-- The pipeline stages whose elapsed times are recorded in the
per-region timing map (spec §4.5 step 4). -/
def processStages : List String :=
  ["get reads", "find candidates", "make pileup images"]

/-- Modelled from the spec: `RegionProcessor.process` (spec §4.5), absent
from `src/`.  Ensures initialization (exactly one `initialize()` call
when not yet initialized, none otherwise), fetches the region's reads and
replaces the in-memory read cache with them, derives candidates and gvcf
records, then creates pileup examples per candidate in order; in training
mode the candidates are labelled as one batch and every example of a
candidate is stamped with that candidate's label, while calling mode
skips labelling entirely (step 6). -/
def process {R C G E L : Type} (mode : Mode) (collab : Collaborators R C G E L)
    (st : ProcState) (region : Range) :
    ProcState × ProcessResult R C G E L :=
  let initCalls := if st.initialized then 0 else 1
  let reads := collab.region_reads region
  let cg := collab.candidates_in_region region
  let times := processStages.map fun s => (s, collab.stage_time s)
  match mode with
  | Mode.TRAINING =>
    let pairs := collab.label_candidates cg.1 region
    let labeled := pairs.flatMap fun pr =>
      (collab.create_pileup_examples pr.1).map fun e => (e, pr.2)
    (⟨true⟩,
      { candidates := cg.1
        examples := labeled.map fun q => collab.add_label_to_ex q.1 q.2
        gvcfs := cg.2
        runtimes := times
        init_calls := initCalls
        region_reads_calls := [region]
        replace_reads_calls := [reads]
        candidates_in_region_calls := [region]
        create_pileup_examples_calls := pairs.map Prod.fst
        label_candidates_calls := [(cg.1, region)]
        add_label_calls := labeled })
  | Mode.CALLING =>
    (⟨true⟩,
      { candidates := cg.1
        examples := cg.1.flatMap collab.create_pileup_examples
        gvcfs := cg.2
        runtimes := times
        init_calls := initCalls
        region_reads_calls := [region]
        replace_reads_calls := [reads]
        candidates_in_region_calls := [region]
        create_pileup_examples_calls := cg.1
        label_candidates_calls := []
        add_label_calls := [] })

/-- C4: the `Uninitialized → Initialized` transition happens at most
once.  A `process(region)` call on a processor whose `initialized` flag
is `false` performs exactly one `initialize()` call, a call on an
already-initialized processor performs none, the resulting state is
always initialized, and in both cases the call still performs the
per-region read fetch, read-cache replacement and candidate generation
exactly once. -/
theorem process_initializes_once {R C G E L : Type} (mode : Mode)
    (collab : Collaborators R C G E L) (st : ProcState) (region : Range) :
    (process mode collab st region).2.init_calls =
        (if st.initialized then 0 else 1) ∧
    (process mode collab st region).1.initialized = true ∧
    (process mode collab st region).2.region_reads_calls = [region] ∧
    (process mode collab st region).2.replace_reads_calls =
        [collab.region_reads region] ∧
    (process mode collab st region).2.candidates_in_region_calls = [region] := by
  cases mode <;> exact ⟨rfl, rfl, rfl, rfl, rfl⟩

/-- C5: examples stay grouped by their originating candidate, in
candidate order.  If candidate generation yields `[c1, c2]`,
example creation yields `[e1]` for `c1` and `[e2, e3]` for `c2`, and the
batch labelling yields labels `l1` for `c1` and `l2` for `c2`, then a
training-mode `process` call emits candidates `[c1, c2]`, examples
exactly `[e1, e2, e3]`, creates pileup examples for `c1` then `c2`, and
stamps labels as `(e1, l1), (e2, l2), (e3, l2)` — both of `c2`'s examples
receive `c2`'s label. -/
theorem process_keeps_ordering {R C G E L : Type}
    (collab : Collaborators R C G E L) (st : ProcState) (region : Range)
    (c1 c2 : C) (l1 l2 : L) (e1 e2 e3 : E)
    (hcir : collab.candidates_in_region region = ([c1, c2], []))
    (hcpe1 : collab.create_pileup_examples c1 = [e1])
    (hcpe2 : collab.create_pileup_examples c2 = [e2, e3])
    (hlc : collab.label_candidates [c1, c2] region = [(c1, l1), (c2, l2)])
    (hal : ∀ e l, collab.add_label_to_ex e l = e) :
    (process Mode.TRAINING collab st region).2.candidates = [c1, c2] ∧
    (process Mode.TRAINING collab st region).2.examples = [e1, e2, e3] ∧
    (process Mode.TRAINING collab st region).2.create_pileup_examples_calls =
        [c1, c2] ∧
    (process Mode.TRAINING collab st region).2.add_label_calls =
        [(e1, l1), (e2, l2), (e3, l2)] ∧
    (process Mode.TRAINING collab st region).2.gvcfs = [] := by
  simp [process, hcir, hlc, hcpe1, hcpe2, hal]

/-- C6: when candidate generation yields no candidates, `process` returns
empty candidate, example and gvcf lists, performs no example creation,
and still returns the per-stage timing map with every stage recorded. -/
theorem process_no_candidates {R C G E L : Type} (mode : Mode)
    (collab : Collaborators R C G E L) (st : ProcState) (region : Range)
    (hcir : collab.candidates_in_region region = ([], []))
    (hlc : collab.label_candidates [] region = []) :
    (process mode collab st region).2.candidates = [] ∧
    (process mode collab st region).2.examples = [] ∧
    (process mode collab st region).2.gvcfs = [] ∧
    (process mode collab st region).2.create_pileup_examples_calls = [] ∧
    (process mode collab st region).2.runtimes.map Prod.fst = processStages := by
  cases mode <;>
    simp [process, hcir, hlc, processStages, Function.comp]

/-- A concrete collaborator set over `Nat`-coded reads, candidates,
gvcf records, examples and labels, realizing the scenario of
`test_process_keeps_ordering_of_candidates_and_examples`: candidates
`1, 2`; candidate `1` yields example `10`, candidate `2` yields examples
`20, 30`; labels `5` for candidate `1` and `6` for candidate `2`. -/
def demoCollab : Collaborators Nat Nat Nat Nat Nat where
  region_reads := fun _ => []
  candidates_in_region := fun _ => ([1, 2], [])
  create_pileup_examples := fun c => if c = 1 then [10] else [20, 30]
  label_candidates := fun cs _ => if cs = [1, 2] then [(1, 5), (2, 6)] else []
  add_label_to_ex := fun e _ => e
  stage_time := fun _ => 0

/-- The region `chr20:10,000,000-10,000,100` used by `RegionProcessorTest`. -/
def testRegion : Range := ⟨"chr20", 9999999, 10000100⟩

/-- Witness for C5 at the concrete scenario of
`test_process_keeps_ordering_of_candidates_and_examples`. -/
theorem process_keeps_ordering_witness :
    (process Mode.TRAINING demoCollab ⟨false⟩ testRegion).2.candidates =
        [1, 2] ∧
    (process Mode.TRAINING demoCollab ⟨false⟩ testRegion).2.examples =
        [10, 20, 30] ∧
    (process Mode.TRAINING demoCollab ⟨false⟩
        testRegion).2.create_pileup_examples_calls = [1, 2] ∧
    (process Mode.TRAINING demoCollab ⟨false⟩ testRegion).2.add_label_calls =
        [(10, 5), (20, 6), (30, 6)] ∧
    (process Mode.TRAINING demoCollab ⟨false⟩ testRegion).2.gvcfs = [] :=
  process_keeps_ordering demoCollab ⟨false⟩ testRegion 1 2 5 6 10 20 30
    rfl rfl rfl rfl (fun _ _ => rfl)

/-- A collaborator set whose candidate generation yields nothing, the
scenario of `test_process_calls_no_candidates`. -/
def emptyCollab : Collaborators Nat Nat Nat Nat Nat where
  region_reads := fun _ => []
  candidates_in_region := fun _ => ([], [])
  create_pileup_examples := fun _ => []
  label_candidates := fun _ _ => []
  add_label_to_ex := fun e _ => e
  stage_time := fun _ => 0

/-- Witness for C6 at the concrete scenario of
`test_process_calls_no_candidates`. -/
theorem process_no_candidates_witness :
    (process Mode.TRAINING emptyCollab ⟨false⟩ testRegion).2.candidates = [] ∧
    (process Mode.TRAINING emptyCollab ⟨false⟩ testRegion).2.examples = [] ∧
    (process Mode.TRAINING emptyCollab ⟨false⟩ testRegion).2.gvcfs = [] ∧
    (process Mode.TRAINING emptyCollab ⟨false⟩
        testRegion).2.create_pileup_examples_calls = [] ∧
    (process Mode.TRAINING emptyCollab ⟨false⟩ testRegion).2.runtimes.map
        Prod.fst = processStages :=
  process_no_candidates Mode.TRAINING emptyCollab ⟨false⟩ testRegion rfl rfl

/-- A variant record (`variants_pb2.Variant` restricted to the fields the
core reads): location, reference bases and alternate bases. -/
structure Variant where
  reference_name : String
  start : Nat
  stop : Nat
  reference_bases : String
  alternate_bases : List String
deriving DecidableEq

/-- A label produced externally per candidate (spec §3): confidence flag,
truth variant, and genotype. -/
structure VariantLabel where
  is_confident : Bool
  variant : Variant
  genotype : List Int
deriving DecidableEq

/-- An example record as far as the core touches it (spec §3): the core
only sets/reads the label field and variant field, never the image
content. -/
structure ExampleRec where
  variant : Variant
  alt_allele_indices : List Nat
  label : Option Nat
deriving DecidableEq

/-- Modelled from the spec: `RegionProcessor.add_label_to_example` (spec
§4.5 failure clause), absent from `src/`.  Stamping a confident label
sets the example's variant and label fields (the numeric encoding of the
label value is external; it is modelled as the number of non-reference
genotype entries, which matches the het `(0,1) ↦ 1` and hom-ref
`(0,0) ↦ 0` cases of the tests); stamping a label whose `is_confident`
is false is a fatal contract violation. -/
def add_label_to_example (ex : ExampleRec) (label : VariantLabel) :
    Except String ExampleRec :=
  if label.is_confident then
    Except.ok { ex with
      variant := label.variant
      label := some (label.genotype.countP fun g => g != 0) }
  else Except.error "Cannot add a non-confident label to an example"

/-- C7: stamping a label whose `is_confident` field is false raises a
`ValueError` identifying that a non-confident label cannot be added, for
every example and every such label — never a skip or a recovery. -/
theorem add_label_to_example_non_confident (ex : ExampleRec)
    (label : VariantLabel) (h : label.is_confident = false) :
    add_label_to_example ex label =
      Except.error "Cannot add a non-confident label to an example" := by
  simp [add_label_to_example, h]

/-- The variant `A → C` at position 10 used by
`test_label_variant_raises_for_non_confident_variant`. -/
def acVariant : Variant := ⟨"chr20", 10, 11, "A", ["C"]⟩

/-- Witness for C7 at the inputs of
`test_label_variant_raises_for_non_confident_variant`: a non-confident
het label on an example for its variant. -/
theorem add_label_to_example_non_confident_witness :
    (VariantLabel.mk false acVariant [0, 1]).is_confident = false ∧
    add_label_to_example ⟨acVariant, [0], none⟩
        (VariantLabel.mk false acVariant [0, 1]) =
      Except.error "Cannot add a non-confident label to an example" :=
  ⟨rfl, add_label_to_example_non_confident ⟨acVariant, [0], none⟩
    (VariantLabel.mk false acVariant [0, 1]) rfl⟩

/-- Total span in basepairs of a contig list. -/
def contigs_n_bases (contigs : List ContigInfo) : Nat :=
  (contigs.map ContigInfo.n_bases).sum

/-- The error raised when contig coverage falls below the threshold,
identifying the total reference span (the tests match `'span 200'` and
`'Reference contigs span'`). -/
def coverageError (ref_bp common_bp : Nat) : String :=
  "Reference contigs span " ++ toString ref_bp ++ " basepairs but only " ++
    toString common_bp ++ " basepairs are in common"

/-- Modelled from the spec:
`make_examples_core.validate_reference_contig_coverage` (spec §4.4),
absent from `src/`.  Computes
`coverage = sum(length of common contigs) / sum(length of reference
contigs)` and fails, identifying the total reference span, exactly when
`coverage < min_coverage_fraction`. -/
def validate_reference_contig_coverage (ref_contigs contigs : List ContigInfo)
    (min_coverage_fraction : ℚ) : Except String Unit :=
  let ref_bp := contigs_n_bases ref_contigs
  let common_bp := contigs_n_bases contigs
  let coverage : ℚ := (common_bp : ℚ) / (ref_bp : ℚ)
  if coverage < min_coverage_fraction then
    Except.error (coverageError ref_bp common_bp)
  else Except.ok ()

/-- The reference contigs `[('1', 100), ('2', 100)]` of
`test_validate_ref_contig_coverage`. -/
def twoRefContigs : List ContigInfo := [⟨"1", 100, 0⟩, ⟨"2", 100, 1⟩]

/-- The single shared contig `[('2', 100)]` of that test. -/
def oneSharedContig : List ContigInfo := [⟨"2", 100, 0⟩]

/-- C8: `validate_reference_contig_coverage` computes coverage as the
summed length of common contigs divided by the summed length of reference
contigs and raises an error identifying the total reference span exactly
when coverage is below `min_coverage_fraction`; with two 100-length
reference contigs of which one is shared it raises (mentioning span 200)
at thresholds 0.6 and 0.9 but returns without error at 0.4, and with both
shared it does not raise at threshold 1.0. -/
theorem validate_reference_contig_coverage_spec :
    (∀ ref common q,
      validate_reference_contig_coverage ref common q = Except.ok () ↔
        ¬ ((contigs_n_bases common : ℚ) / (contigs_n_bases ref : ℚ) < q)) ∧
    (∀ ref common q,
      (contigs_n_bases common : ℚ) / (contigs_n_bases ref : ℚ) < q →
        validate_reference_contig_coverage ref common q =
          Except.error
            (coverageError (contigs_n_bases ref) (contigs_n_bases common))) ∧
    validate_reference_contig_coverage twoRefContigs oneSharedContig
        (6 / 10) = Except.error (coverageError 200 100) ∧
    validate_reference_contig_coverage twoRefContigs oneSharedContig
        (9 / 10) = Except.error (coverageError 200 100) ∧
    validate_reference_contig_coverage twoRefContigs oneSharedContig
        (4 / 10) = Except.ok () ∧
    validate_reference_contig_coverage twoRefContigs twoRefContigs 1 =
      Except.ok () := by
  refine ⟨?_, ?_, ?_, ?_, ?_, ?_⟩
  · intro ref common q
    by_cases h : (contigs_n_bases common : ℚ) / (contigs_n_bases ref : ℚ) < q
    · rw [validate_reference_contig_coverage]
      rw [if_pos h]
      simp [h]
    · rw [validate_reference_contig_coverage]
      rw [if_neg h]
      simp [h]
  · intro ref common q h
    rw [validate_reference_contig_coverage]
    rw [if_pos h]
  · rw [validate_reference_contig_coverage, if_pos (by norm_num
      [contigs_n_bases, twoRefContigs, oneSharedContig])]
    rfl
  · rw [validate_reference_contig_coverage, if_pos (by norm_num
      [contigs_n_bases, twoRefContigs, oneSharedContig])]
    rfl
  · rw [validate_reference_contig_coverage, if_neg (by norm_num
      [contigs_n_bases, twoRefContigs, oneSharedContig])]
  · rw [validate_reference_contig_coverage, if_neg (by norm_num
      [contigs_n_bases, twoRefContigs])]

/-- Witness for C8: at the failing input of
`test_validate_ref_contig_coverage` — reference span 200 with only 100
basepairs shared and threshold 0.6 — the coverage is below the threshold
and the validator raises the span-identifying error. -/
theorem validate_reference_contig_coverage_spec_witness :
    ((contigs_n_bases oneSharedContig : ℚ) /
        (contigs_n_bases twoRefContigs : ℚ) < 6 / 10) ∧
    validate_reference_contig_coverage twoRefContigs oneSharedContig
        (6 / 10) =
      Except.error (coverageError (contigs_n_bases twoRefContigs)
        (contigs_n_bases oneSharedContig)) :=
  ⟨by norm_num [contigs_n_bases, twoRefContigs, oneSharedContig],
    validate_reference_contig_coverage_spec.2.1 twoRefContigs oneSharedContig
      (6 / 10)
      (by norm_num [contigs_n_bases, twoRefContigs, oneSharedContig])⟩

/-- A candidate as far as allele-frequency enrichment touches it: the
variant plus the per-allele frequency map, as in
`deepvariant_pb2.DeepVariantCall`. -/
structure DeepVariantCall where
  variant : Variant
  allele_frequency : List (String × ℚ)
deriving DecidableEq

/-- The default frequencies of spec §4.6 step 5: the reference allele
gets `1`, every alternate allele gets `0`. -/
def defaultAlleleFrequencies (v : Variant) : List (String × ℚ) :=
  (v.reference_bases, 1) :: v.alternate_bases.map fun a => (a, 0)

/-- Modelled from the spec:
`RegionProcessor.add_allele_frequencies_to_candidates` (spec §4.6 and
design note §9), absent from `src/`.  When both the population-variant
source and the reference source are available, each candidate's
frequencies come from the haplotype matcher (`finder`, abstract here);
when either is unavailable every alternate allele defaults to `0` and
the reference allele to `1`; candidates pass through in order. -/
def add_allele_frequencies_to_candidates {P F : Type}
    (finder : Variant → P → F → List (String × ℚ))
    (dv_calls : List DeepVariantCall) (pop_vcf_reader : Option P)
    (ref_reader : Option F) : List DeepVariantCall :=
  dv_calls.map fun c =>
    match pop_vcf_reader, ref_reader with
    | some p, some r => { c with allele_frequency := finder c.variant p r }
    | _, _ => { c with allele_frequency := defaultAlleleFrequencies c.variant }

/-- C9: when the population-variant source or the reference source is
unavailable (`none`), every candidate passes through unchanged in order
(same variants, same sequence) and its allele-frequency map assigns `1`
to the reference allele and `0` to each alternate allele. -/
theorem add_allele_frequencies_defaults {P F : Type}
    (finder : Variant → P → F → List (String × ℚ))
    (dv_calls : List DeepVariantCall) (pop_vcf_reader : Option P)
    (ref_reader : Option F)
    (h : pop_vcf_reader = none ∨ ref_reader = none) :
    (add_allele_frequencies_to_candidates finder dv_calls pop_vcf_reader
        ref_reader).map DeepVariantCall.variant =
      dv_calls.map DeepVariantCall.variant ∧
    ∀ c ∈ add_allele_frequencies_to_candidates finder dv_calls pop_vcf_reader
        ref_reader,
      c.allele_frequency = defaultAlleleFrequencies c.variant := by
  rcases h with rfl | rfl
  · cases ref_reader <;>
      simp [add_allele_frequencies_to_candidates]
  · cases pop_vcf_reader <;>
      simp [add_allele_frequencies_to_candidates]

/-- The candidate of
`test_add_allele_frequencies_to_candidates_invalid_vcf`: variant
`chrM:10000 T → G`. -/
def chrMVariant : Variant := ⟨"chrM", 10000, 10001, "T", ["G"]⟩

/-- That candidate with an empty frequency map. -/
def chrMCall : DeepVariantCall := ⟨chrMVariant, []⟩

/-- Witness for C9 at the inputs of
`test_add_allele_frequencies_to_candidates_invalid_vcf`: both readers
`None`; the single candidate passes through with frequencies
`{T: 1, G: 0}`. -/
theorem add_allele_frequencies_defaults_witness :
    ((none : Option Unit) = none ∨ (none : Option Unit) = none) ∧
    (∀ c ∈ add_allele_frequencies_to_candidates
        (fun _ _ _ => ([] : List (String × ℚ))) [chrMCall]
        (none : Option Unit) (none : Option Unit),
      c.allele_frequency = defaultAlleleFrequencies c.variant) ∧
    defaultAlleleFrequencies chrMVariant = [("T", 1), ("G", 0)] :=
  ⟨Or.inl rfl,
    (add_allele_frequencies_defaults (fun _ _ _ => ([] : List (String × ℚ)))
      [chrMCall] (none : Option Unit) (none : Option Unit) (Or.inl rfl)).2,
    rfl⟩

/-- Modelled from the spec: `make_examples_core.filter_regions_by_vcf`,
absent from `src/` and not described in `spec.md`; its observable
contract is taken from `test_filter_regions_by_vcf` in the shipped test
file: keep exactly the regions containing the start position of at least
one supplied variant. -/
def filter_regions_by_vcf (region_list : List Range)
    (variant_positions : List Range) : List Range :=
  region_list.filter fun r =>
    variant_positions.any fun v =>
      v.reference_name == r.reference_name &&
        r.start ≤ v.start && v.start < r.stop

/-- A region or variant position on contig `x`. -/
def rX (a b : Nat) : Range := ⟨"x", a, b⟩

/-- A region or variant position on contig `y`. -/
def rY (a b : Nat) : Range := ⟨"y", a, b⟩

/-- C10: `filter_regions_by_vcf` returns exactly the subsequence of the
input regions, in their original order, that contain the start position
of at least one supplied variant; in particular (the eight cases of
`test_filter_regions_by_vcf`, in 0-based half-open coordinates) a variant
before or after all regions selects none, a variant on a different contig
selects none, and a variant spanning several regions selects only the
region in which it starts. -/
theorem filter_regions_by_vcf_spec :
    (∀ regions vars, (filter_regions_by_vcf regions vars).Sublist regions) ∧
    (∀ regions vars r, r ∈ filter_regions_by_vcf regions vars ↔
      r ∈ regions ∧ ∃ v ∈ vars, v.reference_name = r.reference_name ∧
        r.start ≤ v.start ∧ v.start < r.stop) ∧
    filter_regions_by_vcf [rX 99 200] [rX 149 151] = [rX 99 200] ∧
    filter_regions_by_vcf [rX 99 200] [rY 149 151] = [] ∧
    filter_regions_by_vcf [rX 99 200, rX 200 300] [rX 99 101] =
      [rX 99 200] ∧
    filter_regions_by_vcf [rX 0 10, rX 10 20, rX 20 30] [rX 10 12] =
      [rX 10 20] ∧
    filter_regions_by_vcf [rX 10 20, rX 19 30] [rX 0 2] = [] ∧
    filter_regions_by_vcf [rX 0 10, rX 10 20, rX 20 30] [rX 39 50] = [] ∧
    filter_regions_by_vcf [rX 10 20, rX 20 30]
        [rX 0 2, rX 24 26, rX 24 26, rX 25 27, rX 39 50] = [rX 20 30] ∧
    filter_regions_by_vcf
        [rX 0 10, rX 10 20, rX 20 30, rX 30 40, rX 40 50, rX 50 60]
        [rX 14 66] = [rX 10 20] := by
  refine ⟨?_, ?_, rfl, rfl, rfl, rfl, rfl, rfl, rfl, rfl⟩
  · intro regions vars
    exact List.filter_sublist regions
  · intro regions vars r
    simp only [filter_regions_by_vcf, List.mem_filter, List.any_eq_true,
      Bool.and_eq_true, beq_iff_eq, decide_eq_true_eq, and_assoc]

end DV
